import Mathlib

/-!
Verification of the storage-synchronization core of the career-agent
repository: the generic storage manager (src/storage/generic/manager.py),
the company storage manager and its Pinecone search index
(src/storage/company/manager.py, src/storage/company/pinecone_index.py),
the generic Pinecone index (src/storage/generic/pinecone_index.py), the
company repository over MongoDB (src/repositories/companies.py), and the
profile manager with its lexical fallback scoring (src/profile/manager.py).

Python exceptions are modelled with `Except PyErr`; `async` calls are
modelled as pure state-passing functions; collaborator backends
(MongoDB, Pinecone, the embedding provider) are modelled as explicit
oracle arguments so that every code path of the repository functions is
represented.  Wall-clock delays (`asyncio.sleep`) have no logical effect
and are not modelled.
-/

namespace CareerAgent

/-- Exception classes raised by the storage layer
(src/storage/base/exceptions.py, src/repositories/database.py). -/
inductive PyErr where
  | storageOperationError
  | entityNotFoundError
  | storageError
  | searchIndexError
deriving DecidableEq, Repr

/-- Index-side metadata: a flat string-keyed projection
(src/storage/base/types.py `Metadata`). -/
abbrev Metadata := List (String × String)

/-- The durable primary document store (MongoDB collection): a counter for
id assignment plus the stored documents keyed by id. -/
structure PrimaryStore (T : Type) where
  nextId : Nat
  docs : List (String × T)
deriving DecidableEq, Repr

/-- The id the store assigns to the next created document. -/
def freshId {T : Type} (ps : PrimaryStore T) : String :=
  "oid" ++ toString ps.nextId

/-- `storage.create`: insert the document under a newly assigned id and
return the id (MongoDB `insert_one`). -/
def storeCreate {T : Type} (ps : PrimaryStore T) (e : T) : String × PrimaryStore T :=
  (freshId ps, ⟨ps.nextId + 1, (freshId ps, e) :: ps.docs⟩)

/-- `storage.read`: look the id up, `none` when absent (MongoDB `find_one`). -/
def storeRead {T : Type} (ps : PrimaryStore T) (eid : String) : Option T :=
  (ps.docs.find? (fun p => p.1 == eid)).map (fun p => p.2)

/-- `storage.update`: replace the document when the id is present and
report whether a document was modified (MongoDB `update_one` with `$set`). -/
def storeUpdate {T : Type} (ps : PrimaryStore T) (eid : String) (e : T) :
    Bool × PrimaryStore T :=
  if (ps.docs.find? (fun p => p.1 == eid)).isSome then
    (true, ⟨ps.nextId, ps.docs.map (fun p => if p.1 == eid then (p.1, e) else p)⟩)
  else (false, ps)

/-- `BaseGenericStorageManager.create` (src/storage/generic/manager.py,
lines 26-54): validate, abort with `StorageOperationError` when invalid;
create in the primary store; derive metadata; call `search_index.index`,
whose boolean result is only logged, while an exception from it is
re-raised as `StorageOperationError` (after the primary-store write).
`validate`, `get_search_metadata` and the index adapter are the
collaborator parameters; `now` stands for `datetime.now().isoformat()`. -/
def managerCreate {T ι : Type} (validate : T → Bool) (getMeta : T → Metadata)
    (entityType now : String)
    (indexOp : ι → String → T → Metadata → Except PyErr Bool × ι)
    (e : T) (ps : PrimaryStore T) (si : ι) :
    Except PyErr String × PrimaryStore T × ι :=
  if !validate e then (.error .storageOperationError, ps, si)
  else
    let created := storeCreate ps e
    let meta := getMeta e ++
      [("entity_type", entityType), ("created_at", now), ("updated_at", now)]
    match indexOp si created.1 e meta with
    | (.ok _, si1) => (.ok created.1, created.2, si1)
    | (.error _, si1) => (.error .storageOperationError, created.2, si1)

/-- `BaseGenericStorageManager.update` (src/storage/generic/manager.py,
lines 70-99): validate, abort when invalid; primary-store update, `false`
becomes `EntityNotFoundError`; re-derive metadata; index (result ignored,
exception re-raised as `StorageOperationError`). -/
def managerUpdate {T ι : Type} (validate : T → Bool) (getMeta : T → Metadata)
    (entityType now : String)
    (indexOp : ι → String → T → Metadata → Except PyErr Bool × ι)
    (eid : String) (e : T) (ps : PrimaryStore T) (si : ι) :
    Except PyErr Bool × PrimaryStore T × ι :=
  if !validate e then (.error .storageOperationError, ps, si)
  else
    match storeUpdate ps eid e with
    | (false, ps1) => (.error .entityNotFoundError, ps1, si)
    | (true, ps1) =>
      let meta := getMeta e ++ [("entity_type", entityType), ("updated_at", now)]
      match indexOp si eid e meta with
      | (.ok _, si1) => (.ok true, ps1, si1)
      | (.error _, si1) => (.error .storageOperationError, ps1, si1)

/-- `BaseGenericStorageManager.search` (src/storage/generic/manager.py,
lines 120-143): take the id list produced by `search_index.search`
(given here as its outcome, `Except`), hydrate each id through the
primary store, silently dropping ids that are not stored; any exception
from the search index is re-raised as `StorageOperationError`. -/
def managerSearch {T : Type} (indexResult : Except PyErr (List String))
    (ps : PrimaryStore T) : Except PyErr (List T) :=
  match indexResult with
  | .ok ids => .ok (ids.filterMap (storeRead ps))
  | .error _ => .error .storageOperationError

end CareerAgent

namespace CareerAgent

/-- Company lifecycle stages, in declaration order
(src/repositories/models.py `CompanyStage`). -/
inductive CompanyStage where
  | idea
  | preSeed
  | mvp
  | seed
  | early
  | seriesA
  | later
deriving DecidableEq, Repr

/-- Ordinal position of a stage in the declared lifecycle order. -/
def stageOrdinal : CompanyStage → Nat
  | .idea => 0
  | .preSeed => 1
  | .mvp => 2
  | .seed => 3
  | .early => 4
  | .seriesA => 5
  | .later => 6

/-- The company document persisted by the repository
(src/repositories/models.py `Company`; timestamps and embedding fields
carry no logic relevant here and are omitted). -/
structure CompanyDoc where
  name : String
  description : String
  industry : String
  stage : CompanyStage
  website : String
deriving DecidableEq, Repr

/-- A character MongoDB accepts inside a 24-character ObjectId string. -/
def isHexChar (c : Char) : Bool :=
  c.isDigit || (('a' ≤ c) && (c ≤ 'f')) || (('A' ≤ c) && (c ≤ 'F'))

/-- `bson.ObjectId(s)` succeeds on a string exactly when it is 24
hexadecimal characters; otherwise it raises `InvalidId`. -/
def validObjectId (s : String) : Bool :=
  (s.length == 24) && s.data.all isHexChar

/-- `CompanyRepository.update` (src/repositories/companies.py, lines
60-71): build the document, refresh `updated_at`, `update_one` with
`$set` on the parsed ObjectId, return `modified_count > 0`.  A malformed
id makes `ObjectId` raise inside the `try`, re-raised as `StorageError`.
Because `updated_at` is refreshed on every call, the document always
changes when the id is present, so `modified_count > 0` holds exactly
when the id is present.  No stage-transition check of any kind occurs. -/
def repoUpdate (docs : List (String × CompanyDoc)) (cid : String) (c : CompanyDoc) :
    Except PyErr (Bool × List (String × CompanyDoc)) :=
  if !validObjectId cid then .error .storageError
  else if (docs.find? (fun p => p.1 == cid)).isSome then
    .ok (true, docs.map (fun p => if p.1 == cid then (p.1, c) else p))
  else .ok (false, docs)

/-- `CompanyRepository.delete` (src/repositories/companies.py, lines
73-86): `delete_one` on the parsed ObjectId, return `deleted_count > 0`.
A malformed id makes `ObjectId` raise inside the `try`, re-raised as
`StorageError`.  `MongoDBCompanyStorage.delete`
(src/storage/company/mongodb.py, lines 75-82) has the same structure. -/
def repoDelete (docs : List (String × CompanyDoc)) (cid : String) :
    Except PyErr (Bool × List (String × CompanyDoc)) :=
  if !validObjectId cid then .error .storageError
  else if (docs.find? (fun p => p.1 == cid)).isSome then
    .ok (true, docs.eraseP (fun p => p.1 == cid))
  else .ok (false, docs)

/-- A match returned by a Pinecone nearest-neighbor query: an id plus a
similarity score (metadata is irrelevant to the properties proved). -/
structure PineMatch where
  id : String
  score : ℚ
deriving DecidableEq, Repr

/-- `PineconeCompanyIndex.search_similar`
(src/storage/company/pinecone_index.py, lines 200-234): fetch the stored
vector for the company id (the oracle `fetchHasVector` says whether the
fetch found it; when not, return `[]`); query neighbors with
`top_k = limit + 1` (the oracle `matches` is the returned match list);
skip the original company id; truncate to `limit`. -/
def searchSimilar (fetchHasVector : Bool) (matchList : List PineMatch)
    (companyId : String) (limit : Nat) : List PineMatch :=
  if !fetchHasVector then []
  else (matchList.filter (fun m => m.id != companyId)).take limit

/-- `PineconeCompanyIndex.search` (src/storage/company/pinecone_index.py,
lines 157-181): embed the query (outcome `embedResult`), run the
nearest-neighbor query (`queryOp` applied to the vector), return the
matched ids; the catch-all `except` turns ANY failure, including an
embedding-provider failure, into an empty id list, so the method never
raises. -/
def companyIndexSearch (embedResult : Except PyErr (List ℚ))
    (queryOp : List ℚ → Except PyErr (List PineMatch)) : List String :=
  match embedResult with
  | .error _ => []
  | .ok v =>
    match queryOp v with
    | .error _ => []
    | .ok ms => ms.map (fun m => m.id)

/-- The hydration loop of `CompanyStorageManager.search_companies`
(src/storage/company/manager.py, lines 66-83): read each id from the
primary store (`readOp` is the outcome of `storage.read`), skip ids that
resolve to nothing, re-raise any read exception as
`StorageOperationError`. -/
def hydrateCompanies (readOp : String → Except PyErr (Option CompanyDoc)) :
    List String → Except PyErr (List CompanyDoc)
  | [] => .ok []
  | i :: rest =>
    match readOp i with
    | .error _ => .error .storageOperationError
    | .ok none => hydrateCompanies readOp rest
    | .ok (some c) => (hydrateCompanies readOp rest).map (fun l => c :: l)

/-- `CompanyStorageManager.search_companies` composed with
`PineconeCompanyIndex.search`: the id list always arrives exception-free
from the adapter, then is hydrated through the primary store. -/
def searchCompaniesManager (embedResult : Except PyErr (List ℚ))
    (queryOp : List ℚ → Except PyErr (List PineMatch))
    (readOp : String → Except PyErr (Option CompanyDoc)) :
    Except PyErr (List CompanyDoc) :=
  hydrateCompanies readOp (companyIndexSearch embedResult queryOp)

end CareerAgent

namespace CareerAgent

/-! ### The sequence-similarity ratio used by the lexical fallback

`ProfileManager._calculate_relevance_score` and
`ProfileManager._calculate_similarity` call
`difflib.SequenceMatcher(None, a, b).ratio()`.  The model below follows
the documented Ratcliff-Obershelp behaviour of `difflib`:
`get_matching_blocks` repeatedly takes the longest matching block of the
current window (among maximal blocks, the one starting earliest in `a`,
then earliest in `b`) and recurses on the pieces to its left and right;
`ratio` is `2 * M / (len(a) + len(b))` where `M` is the total size of
the matching blocks, and `1.0` when both strings are empty.  The
`autojunk` popularity heuristic only activates for strings of length at
least 200 and is not modelled. -/

/-- Length of the common prefix of two character lists. -/
def commonRun : List Char → List Char → Nat
  | a :: as, b :: bs => if a == b then commonRun as bs + 1 else 0
  | _, _ => 0

/-- The window of `l` from index `i` (inclusive) to `h` (exclusive). -/
def windowSlice (l : List Char) (i h : Nat) : List Char :=
  (l.drop i).take (h - i)

/-- Size of the matching block of `a` and `b` that starts at `(i, j)`,
confined to the windows `[alo, ahi)` and `[blo, bhi)`. -/
def blockExtent (a b : List Char) (ahi bhi i j : Nat) : Nat :=
  commonRun (windowSlice a i ahi) (windowSlice b j bhi)

/-- `SequenceMatcher.find_longest_match` on the given windows: the
longest matching block `(i, j, k)`; among maximal blocks, the one with
the smallest `i`, then the smallest `j` (strict improvement over the
ascending scan); `(alo, blo, 0)` when nothing matches. -/
def findLongestMatch (a b : List Char) (alo ahi blo bhi : Nat) :
    Nat × Nat × Nat :=
  (List.range' alo (ahi - alo)).foldl (fun best i =>
    (List.range' blo (bhi - blo)).foldl (fun best j =>
      let k := blockExtent a b ahi bhi i j
      if best.2.2 < k then (i, j, k) else best) best)
    (alo, blo, 0)

/-- Total size of the matching blocks of `SequenceMatcher
.get_matching_blocks` on the given windows.  The fuel argument only
serves termination; `matchingTotal` below supplies enough for the full
recursion. -/
def matchingTotalAux (a b : List Char) :
    Nat → Nat → Nat → Nat → Nat → Nat
  | 0, _, _, _, _ => 0
  | fuel + 1, alo, ahi, blo, bhi =>
    let m := findLongestMatch a b alo ahi blo bhi
    if m.2.2 == 0 then 0
    else m.2.2 + matchingTotalAux a b fuel alo m.1 blo m.2.1
           + matchingTotalAux a b fuel (m.1 + m.2.2) ahi (m.2.1 + m.2.2) bhi

/-- Total matched size for the full strings. -/
def matchingTotal (a b : List Char) : Nat :=
  matchingTotalAux a b (a.length + b.length + 1) 0 a.length 0 b.length

/-- `SequenceMatcher(None, a, b).ratio()`:
`2 * M / (len(a) + len(b))`, and `1.0` when both are empty. -/
def ratioChars (a b : List Char) : ℚ :=
  if a.length + b.length == 0 then 1
  else 2 * (matchingTotal a b : ℚ) / ((a.length : ℚ) + (b.length : ℚ))

/-- The ratio on strings. -/
def ratioStr (a b : String) : ℚ :=
  ratioChars a.data b.data

/-- Python `str.lower()` (ASCII case folding, which covers all strings
appearing here).  Defined on the character list so that it evaluates
inside the kernel. -/
def pyLower (s : String) : String :=
  ⟨s.data.map Char.toLower⟩

/-- Python `str.strip()`: remove leading and trailing whitespace. -/
def pyStrip (s : String) : String :=
  ⟨((s.data.dropWhile Char.isWhitespace).reverse.dropWhile
      Char.isWhitespace).reverse⟩

/-- The Python substring test `needle in hay` on character lists: some
suffix of `hay` starts with `needle`; the empty needle always occurs. -/
def containsSub (needle : List Char) : List Char → Bool
  | [] => needle.isEmpty
  | c :: t => needle.isPrefixOf (c :: t) || containsSub needle t

/-- `ProfileManager._calculate_relevance_score`
(src/profile/manager.py, lines 430-437): name similarity against the
lowercased name, content similarity against the lowercased
`experience examples` blob, a `0.3` keyword bonus when the query occurs
as a substring of the content, weighted `0.6 / 0.4` and clipped from
above by `min(1.0, score)`.  Callers pass the query already lowercased. -/
def calcRelevanceScore (query name experience examples : String) : ℚ :=
  let nameSimilarity := ratioStr query (pyLower name)
  let content := pyLower experience ++ " " ++ pyLower examples
  let contentSimilarity := ratioStr query content
  let keywordBonus : ℚ := if containsSub query.data content.data then 3/10 else 0
  min 1 (nameSimilarity * (3/5) + contentSimilarity * (2/5) + keywordBonus)

/-- Proficiency levels of a capability, as keyed by
`ProfileManager.level_weights` (src/profile/manager.py, lines 18-23). -/
inductive SkillLevel where
  | expert
  | advanced
  | intermediate
  | basic
deriving DecidableEq, Repr

/-- `ProfileManager.level_weights`. -/
def levelWeight : SkillLevel → ℚ
  | .expert => 1
  | .advanced => 4/5
  | .intermediate => 3/5
  | .basic => 2/5

/-- A capability record served by the profile data source. -/
structure Capability where
  name : String
  category : String
  level : SkillLevel
  experience : String
  examples : String
deriving DecidableEq, Repr

/-- `ProfileManager._traditional_search` (src/profile/manager.py, lines
92-110): lowercase the query, score every capability with
`_calculate_relevance_score`, keep those with score at least the
threshold, sort descending by score (Python `sorted` is stable). -/
def traditionalSearch (caps : List Capability) (query : String)
    (threshold : ℚ) : List (Capability × ℚ) :=
  let q := pyLower query
  (caps.filterMap (fun cap =>
    let s := calcRelevanceScore q cap.name cap.experience cap.examples
    if threshold ≤ s then some (cap, s) else none)).mergeSort
      (fun x y => decide (y.2 ≤ x.2))

/-- `ProfileManager.search_capabilities` (src/profile/manager.py, lines
64-90): an empty or whitespace-only query returns `[]` at once;
otherwise the FAISS vector store is consulted (`vectorResult` is the
outcome of initializing it and running
`similarity_search_with_score(query, k=5)`, as capability-score pairs);
on success, results with score at least the threshold are kept and
sorted descending; on ANY exception the method falls back to
`_traditional_search` over the full capability list. -/
def searchCapabilities (vectorResult : Except PyErr (List (Capability × ℚ)))
    (caps : List Capability) (query : String) (threshold : ℚ) :
    List (Capability × ℚ) :=
  if pyStrip query == "" then []
  else
    match vectorResult with
    | .ok results =>
      (results.filter (fun r => decide (threshold ≤ r.2))).mergeSort
        (fun x y => decide (y.2 ≤ x.2))
    | .error _ => traditionalSearch caps query threshold

end CareerAgent

namespace CareerAgent

/-- The best weighted candidate for one requirement: the inner loop of
`ProfileManager._traditional_match_requirements` (src/profile/manager.py,
lines 198-213).  The running best starts at `0` with no candidate and is
replaced only on strict improvement; the score of a capability is
`_calculate_relevance_score(req.lower(), ...) * weights[cap.level]`. -/
def weightedBest (req : String) (caps : List Capability) :
    ℚ × Option (Capability × ℚ) :=
  caps.foldl (fun acc cap =>
    let s := calcRelevanceScore (pyLower req) cap.name cap.experience cap.examples
      * levelWeight cap.level
    if acc.1 < s then (s, some (cap, s)) else acc) (0, none)

/-- The result dictionary built by requirement matching
(src/profile/manager.py, lines 187-193).  Matched and near-match entries
mirror the appended `best_match` values (`Option`, since Python would
append `None` unchecked). -/
structure RequirementMatches where
  matchScore : ℚ
  matchedSkills : List (Option (Capability × ℚ))
  nearMatches : List (Option (Capability × ℚ))
  missingSkills : List String
  additionalRelevant : List (Option (Capability × ℚ))
deriving DecidableEq, Repr

/-- One iteration of the requirement loop (src/profile/manager.py, lines
215-220): best at least `0.8` appends to `matched_skills` and removes
the first occurrence of the requirement from `missing_skills`; best at
least `0.4` appends to `partial_matches` likewise; otherwise nothing
changes. -/
def classifyStep (caps : List Capability) (acc : RequirementMatches)
    (req : String) : RequirementMatches :=
  let best := weightedBest req caps
  if (4/5 : ℚ) ≤ best.1 then
    { acc with matchedSkills := acc.matchedSkills ++ [best.2],
               missingSkills := acc.missingSkills.erase req }
  else if (2/5 : ℚ) ≤ best.1 then
    { acc with nearMatches := acc.nearMatches ++ [best.2],
               missingSkills := acc.missingSkills.erase req }
  else acc

/-- `ProfileManager._traditional_match_requirements`
(src/profile/manager.py, lines 183-229): start from the dictionary with
score `0` and `missing_skills` a copy of the requirements; an empty
requirement list returns it unchanged; otherwise classify every
requirement and set
`match_score = (matched + 0.5 * partial) / total_requirements`. -/
def traditionalMatchRequirements (reqs : List String)
    (caps : List Capability) : RequirementMatches :=
  let init : RequirementMatches := ⟨0, [], [], reqs, []⟩
  if reqs.isEmpty then init
  else
    let r := reqs.foldl (classifyStep caps) init
    { r with matchScore :=
        ((r.matchedSkills.length : ℚ) + (r.nearMatches.length : ℚ) * (1/2))
          / (reqs.length : ℚ) }

end CareerAgent

namespace CareerAgent

/-- Outcome of one verification attempt inside
`PineconeCompanyIndex.add_to_index`: the fetch-by-id confirmed the id,
the fallback top-1 query confirmed it, neither found it, or the attempt
raised. -/
inductive VerifyOutcome where
  | fetchFound
  | queryFound
  | notFound
  | raised
deriving DecidableEq, Repr

/-- An outcome that confirms the id is retrievable. -/
def confirmsOutcome : VerifyOutcome → Bool
  | .fetchFound => true
  | .queryFound => true
  | .notFound => false
  | .raised => false

/-- An outcome at attempt `k` after which the loop moves on to the next
attempt: not found, or an exception on any attempt but the last
(`max_retries = 5`); an exception on the last attempt is re-raised. -/
def proceedsOutcome (o : VerifyOutcome) (k : Nat) : Bool :=
  o == .notFound || (o == .raised && k + 1 != 5)

/-- The verification loop of `PineconeCompanyIndex.add_to_index`
(src/storage/company/pinecone_index.py, lines 108-150): up to
`max_retries = 5` attempts, each preceded by a 3-second sleep; a
confirming fetch or query returns `true`; an exception on the last
attempt is re-raised (and swallowed by the enclosing handler, giving
`false`); exhausting the attempts gives `false`. -/
def verifyAttempts (outcome : Nat → VerifyOutcome) (k : Nat) : Bool :=
  if _h : k < 5 then
    match outcome k with
    | .fetchFound => true
    | .queryFound => true
    | .notFound => verifyAttempts outcome (k + 1)
    | .raised => if k + 1 == 5 then false else verifyAttempts outcome (k + 1)
  else false
termination_by 5 - k
decreasing_by omega

/-- `PineconeCompanyIndex.add_to_index`
(src/storage/company/pinecone_index.py, lines 80-155): embed the
description, upsert the vector, then poll for visibility with
`verifyAttempts`; the enclosing catch-all handler converts every
exception, including an embedding or upsert failure, into `false`, so
the method never raises and never touches the primary store. -/
def addToIndex (embedOk upsertOk : Bool) (outcome : Nat → VerifyOutcome) :
    Bool :=
  if !embedOk then false
  else if !upsertOk then false
  else verifyAttempts outcome 0

/-- The verification loop of the generic `PineconeSearchIndex.index`
(src/storage/generic/pinecone_index.py, lines 99-116): up to
`max_retries = 3` fetches; success returns (the Python method returns
`None`); exhaustion raises `StorageError`, re-raised as `StorageError`
by the enclosing handler. -/
def genericVerifyLoop (found : Nat → Bool) (i : Nat) : Except PyErr Unit :=
  if _h : i < 3 then
    if found i then .ok () else genericVerifyLoop found (i + 1)
  else .error .storageError
termination_by 3 - i
decreasing_by omega

/-- The generic `PineconeSearchIndex.index`
(src/storage/generic/pinecone_index.py, lines 66-121): embed, upsert,
verify; an embedding or upsert failure, like verification exhaustion, is
re-raised as `StorageError` by the enclosing handler.  Unlike the
company adapter, this method has no boolean result at all: it either
succeeds (`None`) or raises. -/
def genericIndexIndex (embedOk : Bool) (found : Nat → Bool) :
    Except PyErr Unit :=
  if !embedOk then .error .storageError
  else genericVerifyLoop found 0

end CareerAgent

namespace CareerAgent

/-- C1: the claim states that when the Search Index search raises, the
Synchronization Manager search returns Lexical Fallback results instead
of propagating the error.  Counterexample: with a search-index exception
and a one-document primary store, `BaseGenericStorageManager.search`
re-raises `StorageOperationError`; it never consults any fallback. -/
theorem c1_manager_search_propagates :
    managerSearch (T := String) (Except.error PyErr.searchIndexError)
      ⟨1, [("oid0", "python marketing")]⟩
      = Except.error PyErr.storageOperationError := rfl

/-- C1 (amended): the automatic lexical fallback on a vector-path
exception is implemented by `ProfileManager.search_capabilities`, which,
for a non-whitespace query, returns exactly the result of
`_traditional_search` over the full capability contents. -/
theorem c1_profile_search_falls_back
    (vectorErr : PyErr) (caps : List Capability) (query : String)
    (threshold : ℚ) (h : ¬ pyStrip query = "") :
    searchCapabilities (Except.error vectorErr) caps query threshold
      = traditionalSearch caps query threshold := by
  simp [searchCapabilities, h]

/-- Witness for C1 (amended) at a concrete query. -/
theorem c1_profile_search_falls_back_witness :
    ¬ pyStrip "python" = "" ∧
    searchCapabilities (Except.error PyErr.searchIndexError) [] "python" (1/5)
      = traditionalSearch [] "python" (1/5) :=
  ⟨by decide, c1_profile_search_falls_back PyErr.searchIndexError [] "python"
    (1/5) (by decide)⟩

/-- C2: when the entity is valid, the primary-store create succeeds and
the search-index `index` call reports failure (`false`), the generic
Manager create still returns the newly assigned id, and reading that id
from the resulting primary store returns the entity. -/
theorem c2_create_survives_index_failure {T ι : Type}
    (validate : T → Bool) (getMeta : T → Metadata) (entityType now : String)
    (indexOp : ι → String → T → Metadata → Except PyErr Bool × ι)
    (e : T) (ps : PrimaryStore T) (si si2 : ι)
    (hv : validate e = true)
    (hidx : indexOp si (freshId ps) e (getMeta e ++
        [("entity_type", entityType), ("created_at", now), ("updated_at", now)])
      = (Except.ok false, si2)) :
    managerCreate validate getMeta entityType now indexOp e ps si
      = (Except.ok (freshId ps), (storeCreate ps e).2, si2) ∧
    storeRead (storeCreate ps e).2 (freshId ps) = some e := by
  constructor
  · simp [managerCreate, hv, storeCreate, hidx]
  · simp [storeRead, storeCreate]

/-- Witness for C2 at a concrete entity and store. -/
theorem c2_create_survives_index_failure_witness :
    (fun (s : String) => !s.isEmpty) "acme" = true ∧
    managerCreate (ι := Unit) (fun s => !s.isEmpty) (fun _ => []) "company" "t0"
      (fun si _ _ _ => (Except.ok false, si)) "acme" ⟨0, []⟩ ()
      = (Except.ok (freshId (T := String) ⟨0, []⟩),
         (storeCreate (⟨0, []⟩ : PrimaryStore String) "acme").2, ()) ∧
    storeRead (storeCreate (⟨0, []⟩ : PrimaryStore String) "acme").2
      (freshId (T := String) ⟨0, []⟩) = some "acme" := by
  refine ⟨by decide, ?_⟩
  exact c2_create_survives_index_failure (fun s => !s.isEmpty) (fun _ => [])
    "company" "t0" (fun si _ _ _ => (Except.ok false, si)) "acme" ⟨0, []⟩ () ()
    (by decide) rfl

/-- C3: the claim (and the test suite, tests/repositories/
test_company_job.py, section 8) requires a stage downgrade to be
rejected before any write; the code performs the write.  At the failing
input, a stored company at stage `early` updated to stage `seed` (a
strictly smaller ordinal) is written and reported as modified. -/
theorem c3_stage_downgrade_write_accepted :
    repoUpdate [("0123456789abcdef01234567",
        ⟨"AI Corp", "AI testing", "saas", CompanyStage.early, "https://a.co"⟩)]
      "0123456789abcdef01234567"
      ⟨"AI Corp", "AI testing", "saas", CompanyStage.seed, "https://a.co"⟩
      = Except.ok (true, [("0123456789abcdef01234567",
        ⟨"AI Corp", "AI testing", "saas", CompanyStage.seed, "https://a.co"⟩)])
    ∧ stageOrdinal CompanyStage.seed < stageOrdinal CompanyStage.early := by
  exact ⟨rfl, by decide⟩

/-- C4: an entity failing `validate()` makes the generic Manager create
and update raise `StorageOperationError` with the primary store and the
search index left completely unchanged, whatever the index adapter is. -/
theorem c4_invalid_entity_no_side_effects {T ι : Type}
    (validate : T → Bool) (getMeta : T → Metadata) (entityType now : String)
    (indexOp : ι → String → T → Metadata → Except PyErr Bool × ι)
    (e : T) (eid : String) (ps : PrimaryStore T) (si : ι)
    (hv : validate e = false) :
    managerCreate validate getMeta entityType now indexOp e ps si
      = (Except.error PyErr.storageOperationError, ps, si) ∧
    managerUpdate validate getMeta entityType now indexOp eid e ps si
      = (Except.error PyErr.storageOperationError, ps, si) := by
  constructor
  · simp [managerCreate, hv]
  · simp [managerUpdate, hv]

/-- Witness for C4 at a concrete invalid entity. -/
theorem c4_invalid_entity_no_side_effects_witness :
    (fun (s : String) => !s.isEmpty) "" = false ∧
    managerCreate (ι := Unit) (fun s => !s.isEmpty) (fun _ => []) "company" "t0"
      (fun si _ _ _ => (Except.ok true, si)) "" ⟨0, []⟩ ()
      = (Except.error PyErr.storageOperationError, ⟨0, []⟩, ()) ∧
    managerUpdate (ι := Unit) (fun s => !s.isEmpty) (fun _ => []) "company" "t0"
      (fun si _ _ _ => (Except.ok true, si)) "oid0" "" ⟨0, []⟩ ()
      = (Except.error PyErr.storageOperationError, ⟨0, []⟩, ()) := by
  refine ⟨by decide, ?_, ?_⟩
  · exact (c4_invalid_entity_no_side_effects (fun s => !s.isEmpty) (fun _ => [])
      "company" "t0" (fun si _ _ _ => (Except.ok true, si)) "" "oid0" ⟨0, []⟩ ()
      (by decide)).1
  · exact (c4_invalid_entity_no_side_effects (fun s => !s.isEmpty) (fun _ => [])
      "company" "t0" (fun si _ _ _ => (Except.ok true, si)) "" "oid0" ⟨0, []⟩ ()
      (by decide)).2

/-- C8: for every fetch outcome, neighbor list, company id and limit,
`PineconeCompanyIndex.search_similar` never contains the queried id and
returns at most `limit` results. -/
theorem c8_find_similar_excludes_self_and_truncates
    (fetchHasVector : Bool) (matchList : List PineMatch)
    (companyId : String) (limit : Nat) :
    (searchSimilar fetchHasVector matchList companyId limit).all
      (fun m => m.id != companyId) = true ∧
    (searchSimilar fetchHasVector matchList companyId limit).length ≤ limit := by
  cases fetchHasVector with
  | false => simp [searchSimilar]
  | true =>
    refine ⟨?_, ?_⟩
    · rw [List.all_eq_true]
      intro m hm
      simp only [searchSimilar, Bool.not_true] at hm
      have hm2 : m ∈ (matchList.filter (fun x => x.id != companyId)) :=
        List.mem_of_mem_take (by simp at hm; exact hm)
      exact (List.mem_filter.mp hm2).2
    · rw [show searchSimilar true matchList companyId limit
            = (matchList.filter (fun m => m.id != companyId)).take limit from rfl]
      exact List.length_take_le limit _

/-- C9: the claim states delete returns `false` and never raises for any
id absent from the store.  Counterexample: the absent id `"nope"` is not
a well-formed ObjectId, so `CompanyRepository.delete` raises
`StorageError` (wrapping `bson.InvalidId`) instead of returning false. -/
theorem c9_delete_malformed_id_raises :
    repoDelete [] "nope" = Except.error PyErr.storageError := rfl

/-- C9 (amended): for every well-formed (24-hex-char) id absent from the
store, `CompanyRepository.delete` returns `false`, leaves the store
unchanged and raises nothing. -/
theorem c9_delete_absent_returns_false
    (docs : List (String × CompanyDoc)) (cid : String)
    (h1 : validObjectId cid = true)
    (h2 : docs.find? (fun p => p.1 == cid) = none) :
    repoDelete docs cid = Except.ok (false, docs) := by
  simp [repoDelete, h1, h2]

/-- Witness for C9 (amended) at a concrete well-formed absent id. -/
theorem c9_delete_absent_returns_false_witness :
    validObjectId "0123456789abcdef01234567" = true ∧
    repoDelete [] "0123456789abcdef01234567" = Except.ok (false, []) :=
  ⟨by decide, c9_delete_absent_returns_false [] "0123456789abcdef01234567"
    (by decide) rfl⟩

/-- C10: `PineconeCompanyIndex.search` returns an empty id list on an
embedding-provider failure and on a query failure (its catch-all handler
never lets an exception escape), and consequently
`CompanyStorageManager.search_companies` composed with it returns an
empty ok-result on any internal index failure, for every read backend. -/
theorem c10_company_search_never_raises
    (queryOp : List ℚ → Except PyErr (List PineMatch))
    (readOp : String → Except PyErr (Option CompanyDoc))
    (err qerr : PyErr) (v : List ℚ) :
    companyIndexSearch (Except.error err) queryOp = [] ∧
    companyIndexSearch (Except.ok v) (fun _ => Except.error qerr) = [] ∧
    searchCompaniesManager (Except.error err) queryOp readOp = Except.ok [] ∧
    searchCompaniesManager (Except.ok v) (fun _ => Except.error qerr) readOp
      = Except.ok [] :=
  ⟨rfl, rfl, rfl, rfl⟩

end CareerAgent

namespace CareerAgent

/-- Characterization of the `add_to_index` verification loop: starting
at attempt `k`, it reports `true` exactly when some attempt in `[k, 5)`
confirms the id and every attempt before it merely proceeds. -/
theorem verifyAttempts_iff (outcome : Nat → VerifyOutcome) :
    ∀ n k, 5 - k ≤ n →
      (verifyAttempts outcome k = true ↔
        ∃ i, k ≤ i ∧ i < 5 ∧ confirmsOutcome (outcome i) = true ∧
          ∀ j, k ≤ j → j < i → proceedsOutcome (outcome j) j = true) := by
  intro n
  induction n with
  | zero =>
    intro k hk
    have h5 : ¬ k < 5 := by omega
    rw [verifyAttempts]
    simp only [h5, dite_false]
    constructor
    · intro h; simp at h
    · rintro ⟨i, hki, hi5, -, -⟩; omega
  | succ n ih =>
    intro k hk
    by_cases h5 : k < 5
    · rw [verifyAttempts]
      simp only [h5, dite_true]
      cases houtk : outcome k with
      | fetchFound =>
        constructor
        · intro _
          exact ⟨k, le_refl k, h5, by rw [houtk]; rfl, fun j hj1 hj2 => by omega⟩
        · intro _; rfl
      | queryFound =>
        constructor
        · intro _
          exact ⟨k, le_refl k, h5, by rw [houtk]; rfl, fun j hj1 hj2 => by omega⟩
        · intro _; rfl
      | notFound =>
        rw [ih (k + 1) (by omega)]
        constructor
        · rintro ⟨i, hki, hi5, hc, hall⟩
          refine ⟨i, by omega, hi5, hc, fun j hj1 hj2 => ?_⟩
          rcases Nat.eq_or_lt_of_le hj1 with hj | hj
          · rw [← hj, houtk]; rfl
          · exact hall j (by omega) hj2
        · rintro ⟨i, hki, hi5, hc, hall⟩
          have hik : ¬ i = k := by
            intro hik
            rw [hik, houtk] at hc
            simp [confirmsOutcome] at hc
          exact ⟨i, by omega, hi5, hc, fun j hj1 hj2 => hall j (by omega) hj2⟩
      | raised =>
        by_cases hlast : k + 1 = 5
        · rw [if_pos (by simp [hlast])]
          constructor
          · intro h; simp at h
          · rintro ⟨i, hki, hi5, hc, -⟩
            have hik : i = k := by omega
            rw [hik, houtk] at hc
            simp [confirmsOutcome] at hc
        · rw [if_neg (by simp only [beq_iff_eq]; exact hlast)]
          rw [ih (k + 1) (by omega)]
          constructor
          · rintro ⟨i, hki, hi5, hc, hall⟩
            refine ⟨i, by omega, hi5, hc, fun j hj1 hj2 => ?_⟩
            rcases Nat.eq_or_lt_of_le hj1 with hj | hj
            · rw [← hj, houtk]
              simp only [proceedsOutcome]
              have : (k + 1 != 5) = true := by
                simp only [bne_iff_ne, ne_eq]; exact hlast
              simp [this]
            · exact hall j (by omega) hj2
          · rintro ⟨i, hki, hi5, hc, hall⟩
            have hik : ¬ i = k := by
              intro hik
              rw [hik, houtk] at hc
              simp [confirmsOutcome] at hc
            exact ⟨i, by omega, hi5, hc, fun j hj1 hj2 => hall j (by omega) hj2⟩
    · rw [verifyAttempts]
      simp only [h5, dite_false]
      constructor
      · intro h; simp at h
      · rintro ⟨i, hki, hi5, -, -⟩; omega

/-- C5 (amended): the claim, restricted to the company Search Index
adapter.  An embedding or upsert failure yields `false` (never an
exception); `add_to_index` returns `true` exactly when the collaborators
succeed and some attempt among the five confirms the id is retrievable
(by fetch or by the fallback query) after only proceeding attempts; in
every other case, including exhaustion of all five attempts, it returns
`false` without raising and without touching the primary store. -/
theorem c5_company_index_verification
    (embedOk upsertOk : Bool) (outcome : Nat → VerifyOutcome) :
    (addToIndex false upsertOk outcome = false) ∧
    (addToIndex embedOk false outcome = false) ∧
    (addToIndex embedOk upsertOk outcome = true ↔
      embedOk = true ∧ upsertOk = true ∧
        ∃ i, i < 5 ∧ confirmsOutcome (outcome i) = true ∧
          ∀ j, j < i → proceedsOutcome (outcome j) j = true) := by
  refine ⟨rfl, by cases embedOk <;> rfl, ?_⟩
  cases embedOk with
  | false => simp [addToIndex]
  | true =>
    cases upsertOk with
    | false => simp [addToIndex]
    | true =>
      show verifyAttempts outcome 0 = true ↔ _
      rw [verifyAttempts_iff outcome 5 0 (by omega)]
      constructor
      · rintro ⟨i, -, hi5, hc, hall⟩
        exact ⟨rfl, rfl, i, hi5, hc, fun j hj => hall j (Nat.zero_le j) hj⟩
      · rintro ⟨-, -, i, hi5, hc, hall⟩
        exact ⟨i, Nat.zero_le i, hi5, hc, fun j _ hj => hall j hj⟩

/-- C5: the claim also covers the generic Search Index adapter, where it
fails.  Counterexample: with the backend never reporting the vector
visible, `PineconeSearchIndex.index` exhausts its attempts and raises
`StorageError` instead of returning `false` (its success value is `None`,
not a boolean). -/
theorem c5_generic_index_raises_on_exhaustion :
    genericIndexIndex true (fun _ => false) = Except.error PyErr.storageError := by
  simp [genericIndexIndex, genericVerifyLoop]

end CareerAgent

namespace CareerAgent

/-- The matched-skills list grows by one per requirement whose best
weighted score reaches `0.8`. -/
theorem classifyStep_matched_len (caps : List Capability) (l : List String) :
    ∀ acc : RequirementMatches,
      (l.foldl (classifyStep caps) acc).matchedSkills.length
        = acc.matchedSkills.length
          + l.countP (fun q => decide ((4/5 : ℚ) ≤ (weightedBest q caps).1)) := by
  induction l with
  | nil => intro acc; simp
  | cons q t iht =>
    intro acc
    rw [List.foldl_cons, iht (classifyStep caps acc q), List.countP_cons]
    have hstep : (classifyStep caps acc q).matchedSkills.length
        = acc.matchedSkills.length
          + (if (4/5 : ℚ) ≤ (weightedBest q caps).1 then 1 else 0) := by
      unfold classifyStep
      by_cases h1 : (4/5 : ℚ) ≤ (weightedBest q caps).1
      · simp [h1]
      · by_cases h2 : (2/5 : ℚ) ≤ (weightedBest q caps).1 <;> simp [h1, h2]
    rw [hstep]
    by_cases h1 : (4/5 : ℚ) ≤ (weightedBest q caps).1
    · rw [decide_eq_true h1]
      simp only [eq_self_iff_true, if_true, if_pos h1]
      omega
    · rw [decide_eq_false h1]
      simp only [Bool.false_eq_true, if_false, if_neg h1]
      omega

/-- The near-match list grows by one per requirement whose best weighted
score lies in `[0.4, 0.8)`. -/
theorem classifyStep_near_len (caps : List Capability) (l : List String) :
    ∀ acc : RequirementMatches,
      (l.foldl (classifyStep caps) acc).nearMatches.length
        = acc.nearMatches.length
          + l.countP (fun q => decide ((2/5 : ℚ) ≤ (weightedBest q caps).1
              ∧ (weightedBest q caps).1 < 4/5)) := by
  induction l with
  | nil => intro acc; simp
  | cons q t iht =>
    intro acc
    rw [List.foldl_cons, iht (classifyStep caps acc q), List.countP_cons]
    have hstep : (classifyStep caps acc q).nearMatches.length
        = acc.nearMatches.length
          + (if (2/5 : ℚ) ≤ (weightedBest q caps).1
                ∧ (weightedBest q caps).1 < 4/5 then 1 else 0) := by
      unfold classifyStep
      by_cases h1 : (4/5 : ℚ) ≤ (weightedBest q caps).1
      · have h3 : ¬ ((2/5 : ℚ) ≤ (weightedBest q caps).1
            ∧ (weightedBest q caps).1 < 4/5) := by
          rintro ⟨-, hlt⟩
          exact absurd h1 (not_le.mpr hlt)
        simp [h1, h3]
      · by_cases h2 : (2/5 : ℚ) ≤ (weightedBest q caps).1
        · have h3 : (2/5 : ℚ) ≤ (weightedBest q caps).1
              ∧ (weightedBest q caps).1 < 4/5 := ⟨h2, not_le.mp h1⟩
          simp [h1, h2, h3]
        · have h3 : ¬ ((2/5 : ℚ) ≤ (weightedBest q caps).1
              ∧ (weightedBest q caps).1 < 4/5) := fun hh => h2 hh.1
          simp [h1, h2, h3]
    rw [hstep]
    by_cases h3 : (2/5 : ℚ) ≤ (weightedBest q caps).1
        ∧ (weightedBest q caps).1 < 4/5
    · rw [decide_eq_true h3]
      simp only [eq_self_iff_true, if_true, if_pos h3]
      omega
    · rw [decide_eq_false h3]
      simp only [Bool.false_eq_true, if_false, if_neg h3]
      omega

/-- A requirement is classified (hence erased from the missing list)
exactly when its best weighted score reaches `0.4`; per-string
occurrence counting shows each classified requirement removes exactly
one occurrence, so the missing-list length drops by the number of
classified requirements. -/
theorem classifyStep_missing_len (caps : List Capability) (l : List String) :
    ∀ acc : RequirementMatches,
      (∀ s : String,
        l.countP (fun q => decide ((2/5 : ℚ) ≤ (weightedBest q caps).1)
            && (q == s))
          ≤ acc.missingSkills.count s) →
      (l.foldl (classifyStep caps) acc).missingSkills.length
        + l.countP (fun q => decide ((2/5 : ℚ) ≤ (weightedBest q caps).1))
        = acc.missingSkills.length := by
  induction l with
  | nil => intro acc _; simp
  | cons q t iht =>
    intro acc hinv
    rw [List.foldl_cons, List.countP_cons]
    by_cases hcls : (2/5 : ℚ) ≤ (weightedBest q caps).1
    · have hq : (decide ((2/5 : ℚ) ≤ (weightedBest q caps).1)
          && (q == q)) = true := by simp [hcls]
      have hpos : 0 < acc.missingSkills.count q := by
        refine lt_of_lt_of_le ?_ (hinv q)
        rw [List.countP_pos_iff]
        exact ⟨q, List.mem_cons_self q t, hq⟩
      have hmem : q ∈ acc.missingSkills := List.count_pos_iff.mp hpos
      have hstep : (classifyStep caps acc q).missingSkills
          = acc.missingSkills.erase q := by
        unfold classifyStep
        by_cases h4 : (4/5 : ℚ) ≤ (weightedBest q caps).1 <;> simp [h4, hcls]
      have hlen : (acc.missingSkills.erase q).length + 1
          = acc.missingSkills.length := by
        rw [List.length_erase_of_mem hmem]
        have := List.length_pos_of_mem hmem
        omega
      have hinv2 : ∀ s : String,
          t.countP (fun x => decide ((2/5 : ℚ) ≤ (weightedBest x caps).1)
              && (x == s))
            ≤ (classifyStep caps acc q).missingSkills.count s := by
        intro s
        rw [hstep, List.count_erase]
        have h2 := hinv s
        rw [List.countP_cons] at h2
        by_cases hqs : q = s
        · subst hqs
          rw [hq] at h2
          simp only [eq_self_iff_true, if_true] at h2
          simp only [beq_self_eq_true, eq_self_iff_true, if_true]
          omega
        · have hbq : ((q == s) : Bool) = false := by
            simp only [beq_eq_false_iff_ne, ne_eq]
            exact hqs
          have hpq : (decide ((2/5 : ℚ) ≤ (weightedBest q caps).1)
              && (q == s)) = false := by
            rw [hbq]
            simp
          rw [hpq] at h2
          rw [hbq]
          simp only [Bool.false_eq_true, if_false] at h2 ⊢
          omega
      have hres := iht (classifyStep caps acc q) hinv2
      rw [hstep] at hres
      rw [decide_eq_true hcls]
      simp only [eq_self_iff_true, if_true]
      omega
    · have h4 : ¬ (4/5 : ℚ) ≤ (weightedBest q caps).1 := by
        intro hh
        exact hcls (le_trans (by norm_num) hh)
      have hstep : classifyStep caps acc q = acc := by
        unfold classifyStep
        simp [h4, hcls]
      have hinv2 : ∀ s : String,
          t.countP (fun x => decide ((2/5 : ℚ) ≤ (weightedBest x caps).1)
              && (x == s))
            ≤ (classifyStep caps acc q).missingSkills.count s := by
        intro s
        rw [hstep]
        have h2 := hinv s
        rw [List.countP_cons] at h2
        omega
      have hres := iht (classifyStep caps acc q) hinv2
      rw [hstep] at hres
      rw [hstep, decide_eq_false hcls]
      simp only [Bool.false_eq_true, if_false]
      omega

/-- Matched and near-match counts partition the classified
requirements. -/
theorem countP_matched_add_near (caps : List Capability) (l : List String) :
    l.countP (fun q => decide ((4/5 : ℚ) ≤ (weightedBest q caps).1))
      + l.countP (fun q => decide ((2/5 : ℚ) ≤ (weightedBest q caps).1
          ∧ (weightedBest q caps).1 < 4/5))
      = l.countP (fun q => decide ((2/5 : ℚ) ≤ (weightedBest q caps).1)) := by
  induction l with
  | nil => simp
  | cons q t ih =>
    simp only [List.countP_cons]
    by_cases h1 : (4/5 : ℚ) ≤ (weightedBest q caps).1
    · have h2 : (2/5 : ℚ) ≤ (weightedBest q caps).1 :=
        le_trans (by norm_num) h1
      have h3 : ¬ ((2/5 : ℚ) ≤ (weightedBest q caps).1
          ∧ (weightedBest q caps).1 < 4/5) := by
        rintro ⟨-, hlt⟩
        exact absurd h1 (not_le.mpr hlt)
      rw [decide_eq_true h1, decide_eq_true h2, decide_eq_false h3]
      simp only [eq_self_iff_true, if_true, Bool.false_eq_true, if_false]
      omega
    · by_cases h2 : (2/5 : ℚ) ≤ (weightedBest q caps).1
      · have h3 : (2/5 : ℚ) ≤ (weightedBest q caps).1
            ∧ (weightedBest q caps).1 < 4/5 := ⟨h2, not_le.mp h1⟩
        rw [decide_eq_false h1, decide_eq_true h2, decide_eq_true h3]
        simp only [eq_self_iff_true, if_true, Bool.false_eq_true, if_false]
        omega
      · have h3 : ¬ ((2/5 : ℚ) ≤ (weightedBest q caps).1
            ∧ (weightedBest q caps).1 < 4/5) := fun hh => h2 hh.1
        rw [decide_eq_false h1, decide_eq_false h2, decide_eq_false h3]
        simp only [Bool.false_eq_true, if_false]
        omega

/-- C6: `_traditional_match_requirements` classifies each requirement by
its best weighted score (lexical relevance times level weight): matched
when the best reaches `0.8`, a near (partial) match when it lies in
`[0.4, 0.8)`, left missing otherwise; the overall score is
`(matched + 0.5 * partial) / total`, and `0` for an empty requirement
list with no division. -/
theorem c6_requirement_matching (reqs : List String) (caps : List Capability) :
    (traditionalMatchRequirements reqs caps).matchedSkills.length
      = reqs.countP (fun q => decide ((4/5 : ℚ) ≤ (weightedBest q caps).1)) ∧
    (traditionalMatchRequirements reqs caps).nearMatches.length
      = reqs.countP (fun q => decide ((2/5 : ℚ) ≤ (weightedBest q caps).1
          ∧ (weightedBest q caps).1 < 4/5)) ∧
    (traditionalMatchRequirements reqs caps).missingSkills.length
      = reqs.length
        - (reqs.countP (fun q => decide ((4/5 : ℚ) ≤ (weightedBest q caps).1))
           + reqs.countP (fun q => decide ((2/5 : ℚ) ≤ (weightedBest q caps).1
               ∧ (weightedBest q caps).1 < 4/5))) ∧
    (traditionalMatchRequirements reqs caps).matchScore
      = if reqs.isEmpty then 0
        else ((reqs.countP (fun q =>
                decide ((4/5 : ℚ) ≤ (weightedBest q caps).1)) : ℚ)
              + (reqs.countP (fun q =>
                  decide ((2/5 : ℚ) ≤ (weightedBest q caps).1
                    ∧ (weightedBest q caps).1 < 4/5)) : ℚ) * (1/2))
          / (reqs.length : ℚ) := by
  by_cases hreqs : reqs.isEmpty = true
  · have : reqs = [] := List.isEmpty_iff.mp hreqs
    subst this
    simp [traditionalMatchRequirements]
  · have hm : (reqs.foldl (classifyStep caps)
        ⟨0, [], [], reqs, []⟩).matchedSkills.length
        = reqs.countP (fun q =>
            decide ((4/5 : ℚ) ≤ (weightedBest q caps).1)) := by
      have h := classifyStep_matched_len caps reqs ⟨0, [], [], reqs, []⟩
      simpa using h
    have hp : (reqs.foldl (classifyStep caps)
        ⟨0, [], [], reqs, []⟩).nearMatches.length
        = reqs.countP (fun q =>
            decide ((2/5 : ℚ) ≤ (weightedBest q caps).1
              ∧ (weightedBest q caps).1 < 4/5)) := by
      have h := classifyStep_near_len caps reqs ⟨0, [], [], reqs, []⟩
      simpa using h
    have hminit : ∀ s : String,
        reqs.countP (fun q => decide ((2/5 : ℚ) ≤ (weightedBest q caps).1)
            && (q == s))
          ≤ (⟨0, [], [], reqs, []⟩ :
              RequirementMatches).missingSkills.count s := by
      intro s
      refine List.countP_mono_left (fun a _ ha => ?_)
      revert ha
      simp only [Bool.and_eq_true, beq_iff_eq, decide_eq_true_eq, and_imp]
      intro _ h2
      simp [h2]
    have hmiss : (reqs.foldl (classifyStep caps)
        ⟨0, [], [], reqs, []⟩).missingSkills.length
        + reqs.countP (fun q =>
            decide ((2/5 : ℚ) ≤ (weightedBest q caps).1))
        = reqs.length := by
      have h := classifyStep_missing_len caps reqs ⟨0, [], [], reqs, []⟩ hminit
      simpa using h
    have hpart := countP_matched_add_near caps reqs
    have hres : traditionalMatchRequirements reqs caps
        = { reqs.foldl (classifyStep caps) ⟨0, [], [], reqs, []⟩ with
            matchScore :=
              (((reqs.foldl (classifyStep caps)
                  ⟨0, [], [], reqs, []⟩).matchedSkills.length : ℚ)
                + ((reqs.foldl (classifyStep caps)
                    ⟨0, [], [], reqs, []⟩).nearMatches.length : ℚ) * (1/2))
                / (reqs.length : ℚ) } := by
      simp only [traditionalMatchRequirements]
      rw [if_neg hreqs]
    rw [hres]
    refine ⟨hm, hp, ?_, ?_⟩
    · show (reqs.foldl (classifyStep caps)
          ⟨0, [], [], reqs, []⟩).missingSkills.length = _
      omega
    · show ((((reqs.foldl (classifyStep caps)
            ⟨0, [], [], reqs, []⟩).matchedSkills.length : ℚ)
          + ((reqs.foldl (classifyStep caps)
              ⟨0, [], [], reqs, []⟩).nearMatches.length : ℚ) * (1/2))
          / (reqs.length : ℚ)) = _
      rw [if_neg hreqs, hm, hp]

end CareerAgent

namespace CareerAgent

/-- A common prefix is no longer than the left list. -/
theorem commonRun_le_left : ∀ a b : List Char, commonRun a b ≤ a.length := by
  intro a
  induction a with
  | nil => intro b; cases b <;> simp [commonRun]
  | cons x xs ih =>
    intro b
    cases b with
    | nil => simp [commonRun]
    | cons y ys =>
      by_cases h : (x == y) = true
      · simp only [commonRun, h, if_true, List.length_cons]
        exact Nat.succ_le_succ (ih ys)
      · simp only [commonRun, h, if_false]
        exact Nat.zero_le _

/-- A common prefix is no longer than the right list. -/
theorem commonRun_le_right : ∀ a b : List Char, commonRun a b ≤ b.length := by
  intro a
  induction a with
  | nil => intro b; cases b <;> simp [commonRun]
  | cons x xs ih =>
    intro b
    cases b with
    | nil => simp [commonRun]
    | cons y ys =>
      by_cases h : (x == y) = true
      · simp only [commonRun, h, if_true, List.length_cons]
        exact Nat.succ_le_succ (ih ys)
      · simp only [commonRun, h, if_false]
        exact Nat.zero_le _

/-- A window slice is no longer than the window. -/
theorem windowSlice_length_le (l : List Char) (i h : Nat) :
    (windowSlice l i h).length ≤ h - i := by
  simp only [windowSlice, List.length_take]
  exact min_le_left _ _

/-- A foldl preserves any invariant preserved by its step function. -/
theorem foldl_preserves {α β : Type} (P : β → Prop) (f : β → α → β) :
    ∀ (l : List α) (init : β), P init →
      (∀ acc x, x ∈ l → P acc → P (f acc x)) → P (l.foldl f init) := by
  intro l
  induction l with
  | nil =>
    intro init h _
    exact h
  | cons x t ih =>
    intro init h hstep
    exact ih (f init x) (hstep init x (List.mem_cons_self x t) h)
      (fun acc y hy hacc => hstep acc y (List.mem_cons_of_mem x hy) hacc)

/-- The block returned by `findLongestMatch` lies inside the requested
windows. -/
theorem findLongestMatch_bounds (a b : List Char) (alo ahi blo bhi : Nat) :
    alo ≤ (findLongestMatch a b alo ahi blo bhi).1 ∧
    blo ≤ (findLongestMatch a b alo ahi blo bhi).2.1 ∧
    (findLongestMatch a b alo ahi blo bhi).2.2
      ≤ ahi - (findLongestMatch a b alo ahi blo bhi).1 ∧
    (findLongestMatch a b alo ahi blo bhi).2.2
      ≤ bhi - (findLongestMatch a b alo ahi blo bhi).2.1 := by
  unfold findLongestMatch
  refine foldl_preserves
    (fun best : Nat × Nat × Nat => alo ≤ best.1 ∧ blo ≤ best.2.1 ∧
      best.2.2 ≤ ahi - best.1 ∧ best.2.2 ≤ bhi - best.2.1) _ _ _
    ⟨le_refl _, le_refl _, Nat.zero_le _, Nat.zero_le _⟩ ?_
  intro best i hi hbest
  refine foldl_preserves
    (fun best : Nat × Nat × Nat => alo ≤ best.1 ∧ blo ≤ best.2.1 ∧
      best.2.2 ≤ ahi - best.1 ∧ best.2.2 ≤ bhi - best.2.1) _ _ _
    hbest ?_
  intro best2 j hj hbest2
  show (fun best3 : Nat × Nat × Nat =>
      alo ≤ best3.1 ∧ blo ≤ best3.2.1 ∧
      best3.2.2 ≤ ahi - best3.1 ∧ best3.2.2 ≤ bhi - best3.2.1)
    (if best2.2.2 < blockExtent a b ahi bhi i j
     then (i, j, blockExtent a b ahi bhi i j) else best2)
  by_cases hk : best2.2.2 < blockExtent a b ahi bhi i j
  · rw [if_pos hk]
    have hi2 := List.mem_range'_1.mp hi
    have hj2 := List.mem_range'_1.mp hj
    refine ⟨hi2.1, hj2.1, ?_, ?_⟩
    · exact le_trans (commonRun_le_left _ _) (windowSlice_length_le a i ahi)
    · exact le_trans (commonRun_le_right _ _) (windowSlice_length_le b j bhi)
  · rw [if_neg hk]
    exact hbest2

/-- The total matched size never exceeds either window. -/
theorem matchingTotalAux_le (a b : List Char) :
    ∀ fuel alo ahi blo bhi,
      matchingTotalAux a b fuel alo ahi blo bhi ≤ ahi - alo ∧
      matchingTotalAux a b fuel alo ahi blo bhi ≤ bhi - blo := by
  intro fuel
  induction fuel with
  | zero =>
    intro alo ahi blo bhi
    simp [matchingTotalAux]
  | succ n ih =>
    intro alo ahi blo bhi
    rw [matchingTotalAux]
    by_cases hk : ((findLongestMatch a b alo ahi blo bhi).2.2 == 0) = true
    · rw [if_pos hk]
      exact ⟨Nat.zero_le _, Nat.zero_le _⟩
    · rw [if_neg hk]
      have hb := findLongestMatch_bounds a b alo ahi blo bhi
      have h1 := ih alo (findLongestMatch a b alo ahi blo bhi).1
        blo (findLongestMatch a b alo ahi blo bhi).2.1
      have h2 := ih ((findLongestMatch a b alo ahi blo bhi).1
          + (findLongestMatch a b alo ahi blo bhi).2.2) ahi
        ((findLongestMatch a b alo ahi blo bhi).2.1
          + (findLongestMatch a b alo ahi blo bhi).2.2) bhi
      have hkpos : 0 < (findLongestMatch a b alo ahi blo bhi).2.2 :=
        Nat.pos_of_ne_zero (by simpa using hk)
      obtain ⟨hb1, hb2, hb3, hb4⟩ := hb
      obtain ⟨h1a, h1b⟩ := h1
      obtain ⟨h2a, h2b⟩ := h2
      constructor
      · omega
      · omega

/-- The sequence-similarity ratio is nonnegative. -/
theorem ratioChars_nonneg (a b : List Char) : 0 ≤ ratioChars a b := by
  unfold ratioChars
  by_cases h : (a.length + b.length == 0) = true
  · rw [if_pos h]
    norm_num
  · rw [if_neg h]
    apply div_nonneg
    · positivity
    · positivity

/-- The sequence-similarity ratio is at most one. -/
theorem ratioChars_le_one (a b : List Char) : ratioChars a b ≤ 1 := by
  unfold ratioChars
  by_cases h : (a.length + b.length == 0) = true
  · rw [if_pos h]
  · rw [if_neg h]
    have hne : 0 < a.length + b.length := Nat.pos_of_ne_zero (by simpa using h)
    have hM := matchingTotalAux_le a b (a.length + b.length + 1)
      0 a.length 0 b.length
    have h1 : matchingTotal a b ≤ a.length := by
      have := hM.1
      simpa [matchingTotal] using this
    have h2 : matchingTotal a b ≤ b.length := by
      have := hM.2
      simpa [matchingTotal] using this
    rw [div_le_one (by exact_mod_cast hne)]
    calc 2 * (matchingTotal a b : ℚ)
        = (matchingTotal a b : ℚ) + (matchingTotal a b : ℚ) := by ring
      _ ≤ (a.length : ℚ) + (b.length : ℚ) :=
          add_le_add (by exact_mod_cast h1) (by exact_mod_cast h2)

/-- C7 (amended): `_calculate_relevance_score` equals the weighted
formula clipped from above by `min(1, score)` — not the raw formula —
and the returned value always lies in `[0, 1]`. -/
theorem c7_relevance_score_clipped (query name experience examples : String) :
    calcRelevanceScore query name experience examples
      = min 1 (ratioStr query (pyLower name) * (3/5)
          + ratioStr query (pyLower experience ++ " " ++ pyLower examples)
              * (2/5)
          + (if containsSub query.data
                (pyLower experience ++ " " ++ pyLower examples).data
             then (3/10 : ℚ) else 0)) ∧
    0 ≤ calcRelevanceScore query name experience examples ∧
    calcRelevanceScore query name experience examples ≤ 1 := by
  refine ⟨rfl, ?_, ?_⟩
  · show (0 : ℚ) ≤ min 1 (ratioStr query (pyLower name) * (3/5)
        + ratioStr query (pyLower experience ++ " " ++ pyLower examples)
            * (2/5)
        + (if containsSub query.data
              (pyLower experience ++ " " ++ pyLower examples).data
           then (3/10 : ℚ) else 0))
    refine le_min (by norm_num) ?_
    have hn := ratioChars_nonneg query.data (pyLower name).data
    have hc := ratioChars_nonneg query.data
      (pyLower experience ++ " " ++ pyLower examples).data
    have hb : (0 : ℚ) ≤ (if containsSub query.data
        (pyLower experience ++ " " ++ pyLower examples).data
        then (3/10 : ℚ) else 0) := by
      by_cases hx : containsSub query.data
          (pyLower experience ++ " " ++ pyLower examples).data = true
      · rw [if_pos hx]; norm_num
      · rw [if_neg hx]
    have : (0 : ℚ) ≤ ratioStr query (pyLower name) * (3/5) := by
      unfold ratioStr
      nlinarith
    have : (0 : ℚ) ≤ ratioStr query
        (pyLower experience ++ " " ++ pyLower examples) * (2/5) := by
      unfold ratioStr
      nlinarith
    linarith
  · show min 1 (ratioStr query (pyLower name) * (3/5)
        + ratioStr query (pyLower experience ++ " " ++ pyLower examples)
            * (2/5)
        + (if containsSub query.data
              (pyLower experience ++ " " ++ pyLower examples).data
           then (3/10 : ℚ) else 0)) ≤ 1
    exact min_le_left _ _

/-- C7: the claim says the returned score equals the raw weighted
formula.  Counterexample: for query `"a"` against name `"a"`,
experience `"a"`, examples `"a"`, the raw formula evaluates to `1.1`
while the function returns the clipped value `1`. -/
theorem c7_formula_exceeds_clip :
    calcRelevanceScore "a" "a" "a" "a" = 1 ∧
    ratioStr "a" (pyLower "a") * (3/5)
      + ratioStr "a" (pyLower "a" ++ " " ++ pyLower "a") * (2/5) + (3/10 : ℚ)
      = 11/10 ∧
    (1 : ℚ) ≠ 11/10 := by
  have e1 : ratioStr "a" (pyLower "a") = 1 := by
    have hm : matchingTotal "a".data (pyLower "a").data = 1 := by decide
    have hl1 : "a".data.length = 1 := by decide
    have hl2 : (pyLower "a").data.length = 1 := by decide
    unfold ratioStr ratioChars
    rw [if_neg (by decide), hm, hl1, hl2]
    norm_num
  have e2 : ratioStr "a" (pyLower "a" ++ " " ++ pyLower "a") = 1/2 := by
    have hm : matchingTotal "a".data
        (pyLower "a" ++ " " ++ pyLower "a").data = 1 := by decide
    have hl1 : "a".data.length = 1 := by decide
    have hl2 : (pyLower "a" ++ " " ++ pyLower "a").data.length = 3 := by decide
    unfold ratioStr ratioChars
    rw [if_neg (by decide), hm, hl1, hl2]
    norm_num
  have e3 : containsSub "a".data
      (pyLower "a" ++ " " ++ pyLower "a").data = true := by decide
  refine ⟨?_, ?_, by norm_num⟩
  · show min 1 (ratioStr "a" (pyLower "a") * (3/5)
        + ratioStr "a" (pyLower "a" ++ " " ++ pyLower "a") * (2/5)
        + (if containsSub "a".data
              (pyLower "a" ++ " " ++ pyLower "a").data
           then (3/10 : ℚ) else 0)) = 1
    rw [e1, e2, if_pos e3]
    rw [show (1 : ℚ) * (3/5) + (1/2) * (2/5) + 3/10 = 11/10 by norm_num]
    exact min_eq_left (by norm_num)
  · rw [e1, e2]
    norm_num

end CareerAgent
